import Mathlib

/-!
# QE framework: version attributes and drag/drop event adapter

A shallow embedding of

* `QEFrameworkVersion::getAttributes` (QEFrameworkVersion.cpp), and
* the `QEDragDrop` constructor, `qcaDragEnterEvent`, `qcaDropEvent` and
  `qcaMousePressEvent` with the helpers they call (QEDragDrop.cpp).

Pointers are `Option Nat` (`none` is `NULL`).  Calls that leave the class
(`setDrop`, `getDrop`, the clipboard, the action-request signal, `QDrag::exec`)
are recorded, in order, as a list of `Effect`s.  A path on which the program
does not continue (a call of `exit`, an index outside a list) is an
`Except.error`.
-/

namespace QE

/-! ## Qt value types used by the code -/

/-- A C++ pointer: `none` is `NULL`, `some a` a non-null address. -/
abbrev Ptr := Option Nat

/-- The string type of the toolkit (`QString`). -/
abbrev QString := String

/-- Member `QString::isEmpty`: the string has no characters. -/
def QString.isEmpty (s : QString) : Bool := s.data.isEmpty

/-- Member `QChar::isSpace`: the characters the class `\s` of `QRegExp`
matches, which are the ASCII blanks 9..13 and 32, NEL, NBSP and the Unicode
separator categories Zs, Zl, Zp. -/
def QChar.isSpace (c : Char) : Bool :=
  let u := c.toNat
  u == 0x20 || (0x09 ≤ u && u ≤ 0x0d) ||
  (u > 127 && (u == 0x85 || u == 0xa0 || u == 0x1680 || (0x2000 ≤ u && u ≤ 0x200a) ||
    u == 0x2028 || u == 0x2029 || u == 0x202f || u == 0x205f || u == 0x3000))

/-- The scan behind `QString::split (QRegExp ("\\s+"), QString::SkipEmptyParts)`:
`cur` holds, reversed, the characters read since the last separator match.  A
maximal run of blanks is one match of `\s+`; the part before a match is
appended unless it is empty, and so is the part after the last match. -/
def splitScan : List Char → List Char → List QString
  | cur, [] => if cur.isEmpty then [] else [String.mk cur.reverse]
  | cur, c :: cs =>
    if QChar.isSpace c then
      if cur.isEmpty then splitScan [] cs else String.mk cur.reverse :: splitScan [] cs
    else
      splitScan (c :: cur) cs

/-- The call `text.split (QRegExp ("\\s+"), QString::SkipEmptyParts)`. -/
def QString.splitSkipEmpty (s : QString) : List QString := splitScan [] s.data

/-- What stops the program on a path. -/
inductive Fault where
  /-- A call of `exit (status)`, after the warning text was written. -/
  | exit (status : Nat) (warning : String)
  /-- An index outside the bounds of a `QList` in `operator[]`. -/
  | indexOutOfRange
deriving DecidableEq, Repr

/-- Status `EXIT_SUCCESS` of `<cstdlib>`. -/
def EXIT_SUCCESS : Nat := 0

/-- Status `EXIT_FAILURE` of `<cstdlib>`. -/
def EXIT_FAILURE : Nat := 1

/-! ## QEFrameworkVersion -/

/-- A `QVariant` as far as the adapter looks at it: its type is `String`,
`Image`, or another one, and `toString` gives a text for each. -/
inductive QVariant where
  | string (s : QString)
  | image (handle : Nat)
  | other (typeId : Nat) (asString : QString)
deriving DecidableEq, Repr

/-- Received `QMimeData`: the plain-text payload when the data has one (then
`hasText` holds and `text` returns it, otherwise `text` is the empty string),
and the image payload when it has one (otherwise `imageData` is null). -/
structure QMimeData where
  plainText : Option QString
  image : Option Nat
deriving DecidableEq, Repr

/-- Member `QMimeData::hasText`. -/
def QMimeData.hasText (m : QMimeData) : Bool := m.plainText.isSome

/-- Member `QMimeData::text`. -/
def QMimeData.text (m : QMimeData) : QString := m.plainText.getD ""

/-- Values of `Qt::DropAction`. -/
inductive DropAction where
  | CopyAction | MoveAction | LinkAction | IgnoreAction
deriving DecidableEq, Repr

/-- A `QDropEvent` (a `QDragEnterEvent` is one too): what the adapter reads,
and the two things it writes, the drop action and the accept flag. -/
structure QDropEvent where
  mimeData : QMimeData
  source : Ptr
  proposedAction : DropAction
  dropAction : DropAction
  accepted : Bool
deriving DecidableEq, Repr

/-- Member `QEvent::accept`. -/
def QDropEvent.accept (e : QDropEvent) : QDropEvent := { e with accepted := true }

/-- Member `QEvent::ignore`. -/
def QDropEvent.ignore (e : QDropEvent) : QDropEvent := { e with accepted := false }

/-- Member `QDropEvent::setDropAction`. -/
def QDropEvent.setDropAction (e : QDropEvent) (a : DropAction) : QDropEvent :=
  { e with dropAction := a }

/-- Member `QDropEvent::acceptProposedAction`: take the proposed action as the
drop action and accept. -/
def QDropEvent.acceptProposedAction (e : QDropEvent) : QDropEvent :=
  { e with dropAction := e.proposedAction, accepted := true }

/-- Values of `QEvent::Type` a mouse event can carry; `other` stands for every
remaining value of the enumeration. -/
inductive EventType where
  | MouseButtonPress | MouseButtonRelease | MouseButtonDblClick | MouseMove
  | other (code : Nat)
deriving DecidableEq, Repr

/-- Values of `Qt::MouseButton`; `other` stands for the extra buttons. -/
inductive MouseButton where
  | NoButton | LeftButton | RightButton | MiddleButton
  | other (code : Nat)
deriving DecidableEq, Repr

/-- A `QMouseEvent`. -/
structure QMouseEvent where
  type : EventType
  button : MouseButton
  pos : Int × Int
  accepted : Bool
deriving DecidableEq, Repr

/-- Member `QEvent::ignore` on a mouse event. -/
def QMouseEvent.ignore (e : QMouseEvent) : QMouseEvent := { e with accepted := false }

/-- The two requests the signaller object can carry. -/
inductive ActionKind where
  | actionPvProperties | actionStripChart
deriving DecidableEq, Repr

/-- Payload put into the `QMimeData` of an outgoing drag. -/
inductive DragPayload where
  | text (s : QString)
  | imageData (v : QVariant)
deriving DecidableEq, Repr

/-- A call that leaves the class, in the order the calls are made. -/
inductive Effect where
  /-- Hook `setDrop (drop)` of the widget. -/
  | setDrop (drop : QVariant)
  /-- Hook `getDrop ()` of the widget. -/
  | getDrop
  /-- The blocking `drag->exec (Qt::CopyAction, Qt::CopyAction)` with the
  payload and the hot spot; the pixmap is not part of the record. -/
  | dragExec (payload : DragPayload) (hotSpot : Int × Int)
  /-- Call `qew->copyVariable ()`. -/
  | copyVariable
  /-- Call `QApplication::clipboard ()->setText (text)`. -/
  | clipboardSetText (text : QString)
  /-- Call `qew->sendMessage (text, message_types (MESSAGE_TYPE_INFO, MESSAGE_KIND_STATUS))`. -/
  | sendMessage (text : QString)
  /-- Call `object->sendRequestAction (QEActionRequests (kind, pvName))`. -/
  | sendRequestAction (kind : ActionKind) (pvName : QString)
  /-- A line written through the `DEBUG` stream. -/
  | debug (text : String)
deriving DecidableEq, Repr

/-- The signaller object `QEDragDropObject`, a `QObject` with a parent. -/
structure QEDragDropObject where
  parent : Ptr
deriving DecidableEq, Repr

/-- Members of `QEDragDrop` set by its constructor. -/
structure QEDragDrop where
  owner : Ptr
  qew : Ptr
  object : QEDragDropObject
deriving DecidableEq, Repr

/-- Constructor `QEDragDrop::QEDragDrop (qewIn, ownerIn)`. -/
def QEDragDrop.new (qewIn ownerIn : Ptr) : Except Fault QEDragDrop :=
  if ownerIn = none then
    .error (.exit EXIT_FAILURE "QEDragDrop constructor called with a null 'owner'")
  else
    .ok { owner := ownerIn, qew := qewIn, object := { parent := ownerIn } }

/-- Method `QEDragDrop::qcaDragEnterEvent`: the event as the call leaves it. -/
def qcaDragEnterEvent (self : QEDragDrop) (event : QDropEvent) (allowSelfDrop : Bool) :
    QDropEvent :=
  if event.mimeData.hasText then
    if event.source = self.owner then
      if allowSelfDrop then
        (event.setDropAction .MoveAction).accept
      else
        event.ignore
    else
      event.acceptProposedAction
  else
    event.ignore

/-- Method `QEDragDrop::qcaDropEvent`: the calls made and the event as the call
leaves it, or the fault that stops the path. -/
def qcaDropEvent (self : QEDragDrop) (event : QDropEvent) (allText : Bool) :
    Except Fault (List Effect × QDropEvent) := do
  if !event.mimeData.hasText then
    return ([], event.ignore)
  let mime := event.mimeData
  let calls : List Effect ←
    if !(QString.isEmpty mime.text) then
      if allText then
        pure [Effect.setDrop (.string mime.text)]
      else
        let pieces := QString.splitSkipEmpty mime.text
        match pieces[0]? with
        | some piece => pure [Effect.setDrop (.string piece)]
        | none => throw Fault.indexOutOfRange
    else
      match mime.image with
      | some image => pure [Effect.setDrop (.image image)]
      | none => pure []
  if event.source = self.owner then
    return (calls, (event.setDropAction .CopyAction).accept)
  else
    return (calls, event.acceptProposedAction)

/-- The first part of a text: the first maximal run of characters that are not
blanks. -/
def firstPart (s : QString) : QString :=
  String.mk ((s.data.dropWhile QChar.isSpace).takeWhile (fun c => !QChar.isSpace c))

/-! ## Lemmas on the split -/

/-- A text other than the empty one is not `isEmpty`. -/
theorem isEmpty_eq_false_of_ne (s : QString) (h : s ≠ "") : QString.isEmpty s = false := by
  obtain ⟨l⟩ := s
  cases l with
  | nil => exact absurd rfl h
  | cons c cs => rfl

/-- With characters pending, the first piece is the pending characters
followed by the leading non-blank run of the rest. -/
theorem splitScan_head_pending (cs : List Char) :
    ∀ cur : List Char, cur ≠ [] →
      (splitScan cur cs)[0]? =
        some (String.mk (cur.reverse ++ cs.takeWhile (fun c => !QChar.isSpace c))) := by
  induction cs with
  | nil =>
    intro cur hcur
    cases cur with
    | nil => exact absurd rfl hcur
    | cons a as => simp [splitScan]
  | cons c cs ih =>
    intro cur hcur
    cases cur with
    | nil => exact absurd rfl hcur
    | cons a as =>
      by_cases hc : QChar.isSpace c = true
      · simp [splitScan, hc]
      · have hc' : QChar.isSpace c = false := by simpa using hc
        have := ih (c :: a :: as) (by simp)
        simp [splitScan, hc', this]

/-- With nothing pending, leading blanks are skipped; the first piece is the
first maximal run of non-blank characters, and there is none when every
character is a blank. -/
theorem splitScan_head_fresh (cs : List Char) :
    (splitScan [] cs)[0]? =
      match cs.dropWhile QChar.isSpace with
      | [] => none
      | rest => some (String.mk (rest.takeWhile (fun c => !QChar.isSpace c))) := by
  induction cs with
  | nil => simp [splitScan]
  | cons c cs ih =>
    by_cases hc : QChar.isSpace c = true
    · simp [splitScan, hc, ih]
    · have hc' : QChar.isSpace c = false := by simpa using hc
      have := splitScan_head_pending cs [c] (by simp)
      simp [splitScan, hc', this, List.dropWhile, List.takeWhile]

/-- A text with a character that is not a blank splits into at least one
piece, the first being `firstPart`. -/
theorem splitSkipEmpty_head (s : QString) (h : ∃ c ∈ s.data, QChar.isSpace c = false) :
    (QString.splitSkipEmpty s)[0]? = some (firstPart s) := by
  unfold QString.splitSkipEmpty firstPart
  rw [splitScan_head_fresh]
  cases hd : s.data.dropWhile QChar.isSpace with
  | nil =>
    obtain ⟨c, hc, hsp⟩ := h
    have hall : ∀ x ∈ s.data, QChar.isSpace x = true := by
      simpa [List.dropWhile_eq_nil_iff] using hd
    rw [hall c hc] at hsp
    exact absurd hsp (by simp)
  | cons a as => rfl

/-- With a text that has a character other than a blank, `qcaDropEvent` called
with `allText == false` makes one call, `setDrop` with the first part, and
accepts the event. -/
theorem qcaDropEvent_firstPart (self : QEDragDrop) (ev : QDropEvent)
    (h : ∃ c ∈ ev.mimeData.text.data, QChar.isSpace c = false) :
    qcaDropEvent self ev false =
      .ok ([.setDrop (.string (firstPart ev.mimeData.text))],
        if ev.source = self.owner then (ev.setDropAction .CopyAction).accept
        else ev.acceptProposedAction) := by
  have hhead := splitSkipEmpty_head ev.mimeData.text h
  have hne : QString.isEmpty ev.mimeData.text = false := by
    obtain ⟨c, hc, _⟩ := h
    unfold QString.isEmpty
    cases hd : ev.mimeData.text.data with
    | nil => rw [hd] at hc; exact absurd hc (List.not_mem_nil c)
    | cons a as => rfl
  have hhas : ev.mimeData.hasText = true := by
    unfold QMimeData.hasText
    cases hp : ev.mimeData.plainText with
    | none =>
      have : ev.mimeData.text = "" := by simp [QMimeData.text, hp]
      rw [this] at hne
      exact absurd hne (by decide)
    | some t => rfl
  unfold qcaDropEvent
  by_cases hs : ev.source = self.owner <;>
    simp [hhas, hne, hhead, hs, bind, Except.bind, pure, Except.pure]

/-! ## The claims -/

/-- C1: the constructor called with a null owner ends the program through
`exit` with the failure status, whatever `qewIn` is, so it yields no object;
with a non-null owner it yields the object holding that owner, the given
`qew`, and a signaller object whose parent is the owner. -/
theorem QEDragDrop_new_null_owner_is_fatal :
    (∀ qewIn : Ptr, ∃ warning, QEDragDrop.new qewIn none = .error (.exit EXIT_FAILURE warning)) ∧
    EXIT_FAILURE ≠ EXIT_SUCCESS ∧
    (∀ (qewIn : Ptr) (d : QEDragDrop), QEDragDrop.new qewIn none ≠ .ok d) ∧
    (∀ (qewIn : Ptr) (a : Nat), QEDragDrop.new qewIn (some a) =
      .ok { owner := some a, qew := qewIn, object := { parent := some a } }) := by
  refine ⟨fun qewIn => ⟨_, rfl⟩, by decide, ?_, ?_⟩
  · intro qewIn d h
    simp [QEDragDrop.new] at h
  · intro qewIn a
    simp [QEDragDrop.new]

/-- C2: `qcaDragEnterEvent` leaves the event accepted exactly when its mime
data has text and the source is not the owner or `allowSelfDrop` is true; in
every other case the event leaves as `ignore ()` makes it.  An event whose
source is the owner is accepted only with `allowSelfDrop`. -/
theorem qcaDragEnterEvent_accepts_iff (self : QEDragDrop) (ev : QDropEvent)
    (allowSelfDrop : Bool) :
    ((qcaDragEnterEvent self ev allowSelfDrop).accepted = true ↔
      (ev.mimeData.hasText = true ∧ (ev.source ≠ self.owner ∨ allowSelfDrop = true))) ∧
    ((ev.mimeData.hasText = true ∧ (ev.source ≠ self.owner ∨ allowSelfDrop = true)) ∨
      qcaDragEnterEvent self ev allowSelfDrop = ev.ignore) ∧
    (ev.source ≠ self.owner ∨ allowSelfDrop = true ∨
      (qcaDragEnterEvent self ev allowSelfDrop).accepted = false) := by
  unfold qcaDragEnterEvent
  by_cases ht : ev.mimeData.hasText = true <;>
  by_cases hs : ev.source = self.owner <;>
  cases allowSelfDrop <;>
  simp [ht, hs, QDropEvent.accept, QDropEvent.ignore, QDropEvent.setDropAction,
    QDropEvent.acceptProposedAction]

/-- C3, at a text of one blank: the text is not empty, the split yields no
piece, and `qcaDropEvent` called with `allText == false` stops at `pieces[0]`
with the index outside the list; no `setDrop` call is made. -/
theorem qcaDropEvent_blank_text_index_out_of_range :
    QString.isEmpty " " = false ∧
    QString.splitSkipEmpty " " = [] ∧
    qcaDropEvent { owner := some 1, qew := some 2, object := { parent := some 1 } }
      { mimeData := { plainText := some " ", image := none }, source := some 7,
        proposedAction := .CopyAction, dropAction := .IgnoreAction, accepted := false }
      false = .error .indexOutOfRange := by
  refine ⟨by decide, by decide, ?_⟩
  rfl

/-- C4: for a drop event whose mime text is not empty, `qcaDropEvent` called
with `allText == true` makes exactly one call, `setDrop` with the whole text
as it is, and accepts the event. -/
theorem qcaDropEvent_allText_drops_whole_text (self : QEDragDrop) (ev : QDropEvent)
    (h : ev.mimeData.text ≠ "") :
    qcaDropEvent self ev true =
      .ok ([.setDrop (.string ev.mimeData.text)],
        if ev.source = self.owner then (ev.setDropAction .CopyAction).accept
        else ev.acceptProposedAction) := by
  have hne := isEmpty_eq_false_of_ne _ h
  have hhas : ev.mimeData.hasText = true := by
    unfold QMimeData.hasText
    cases hp : ev.mimeData.plainText with
    | none => exact absurd (by simp [QMimeData.text, hp]) h
    | some t => rfl
  unfold qcaDropEvent
  by_cases hs : ev.source = self.owner <;>
    simp [hhas, hne, hs, bind, Except.bind, pure, Except.pure]

/-- Witness for C4: a text with blanks and several parts, dropped whole. -/
theorem qcaDropEvent_allText_drops_whole_text_witness :
    qcaDropEvent { owner := some 1, qew := some 2, object := { parent := some 1 } }
      { mimeData := { plainText := some " PV:A  PV:B ", image := none }, source := some 7,
        proposedAction := .MoveAction, dropAction := .IgnoreAction, accepted := false }
      true =
      .ok ([.setDrop (.string " PV:A  PV:B ")],
        { mimeData := { plainText := some " PV:A  PV:B ", image := none }, source := some 7,
          proposedAction := .MoveAction, dropAction := .MoveAction, accepted := true }) :=
  qcaDropEvent_allText_drops_whole_text
    { owner := some 1, qew := some 2, object := { parent := some 1 } }
    { mimeData := { plainText := some " PV:A  PV:B ", image := none }, source := some 7,
      proposedAction := .MoveAction, dropAction := .IgnoreAction, accepted := false }
    (by decide)

end QE
